import Mathlib

/-!
Verification of the EMP metabolomics annotation pipeline
(`notebooks/EMP-metabo_CMN_microbial_metabolites.ipynb`).

The pipeline is embedded shallowly: pandas cells that may be missing
(`np.nan`) become `Option Str`, Python strings become `Str := List Char`,
tables become lists of row structures, and each notebook step (identifier
normalization, reference aggregation, the ten left merges, the confidence
tiering loop, the tool-summary loop, and network propagation) becomes an
executable Lean function translated from the corresponding cell.

Notes on the translation of two Python identity tests in the source:
`row[c] is not np.nan` is a missing-value test on object-dtype columns
(pandas preserves the `np.nan` singleton there), embedded as `Option.isSome`;
`row['GNPS_componentindex'] is not -1` compares a boxed int64 cell — boxed by
`DataFrame.values`/`iterrows` to a cached small Python `int` — with the
literal `-1`, embedded as `≠ -1` on `Int`.  `groupby` sorts group keys;
the embedding keeps first-occurrence order instead, which no statement
below depends on.
-/

set_option autoImplicit false

namespace EMP

/-- Python strings are modelled as lists of characters. -/
abbrev Str := List Char

/-- The literal marker string `'YES'` written by the tiering loop and by
`_propagate_microbial_annotation`. -/
def yes : Str := ['Y', 'E', 'S']

/-- Python `str(v)` applied to a table cell that may be missing: a missing
cell (`np.nan`) prints as the literal text `nan`, a present string prints as
itself. -/
def pyStr : Option Str → Str
  | none => ['n', 'a', 'n']
  | some s => s

/-- Python `s.split(sep)` for a single-character separator: the list of
chunks between occurrences of `sep`.  `''.split(sep) = ['']`, and every
occurrence of `sep` starts a new chunk. -/
def pySplit (sep : Char) : Str → List Str
  | [] => [[]]
  | c :: rest =>
    match pySplit sep rest with
    | [] => [[]]
    | chunk :: chunks =>
      if c = sep then [] :: chunk :: chunks else (c :: chunk) :: chunks

/-- `_prepare_inchikey` applied to one cell of the identifier column:
`table[column].str.split('-').str[0]`.  The pandas `.str` accessor
propagates a missing cell, and `.str[0]` takes the first chunk of the
split. -/
def _prepare_inchikey : Option Str → Option Str :=
  Option.map (fun s => (pySplit '-' s).headD [])

/-- Python `'|'.join(values)`. -/
def pipeJoin : List Str → Str
  | [] => []
  | [s] => s
  | s :: b :: t => s ++ '|' :: pipeJoin (b :: t)

/-- The metadata fields of an NPAtlas reference row selected by
`_aggregate_npatlas` (column names carry the `NPA_` prefix in the source). -/
inductive NpaF
  | npaid | compound_id | compound_names | origin_type
  | genus | origin_species | mibig_ids
deriving DecidableEq, Repr

/-- The metadata fields of a MIBiG reference row selected by
`_aggregate_mibig` (column names carry the `MIBIG_` prefix in the source). -/
inductive MibigF
  | mibig_accession | organism_name | compound_name | ncbi_tax_id
deriving DecidableEq, Repr

/-- A reference-database row as seen by the aggregation step: its normalized
join-key cell (`*_no_stereo` inchikey column, possibly missing) and its
metadata cells, indexed by the field type `F`. -/
structure RefRow (F : Type) where
  key : Option Str
  field : F → Option Str

/-- A row of an aggregated reference table: one non-missing key and, per
metadata field, the pipe-joined concatenation of the group's values. -/
structure AggRow (F : Type) where
  key : Str
  field : F → Str

/-- The group keys of `groupby(key_column)`: the distinct non-missing keys
(`groupby` drops missing keys). -/
def groupKeys {F : Type} (rows : List (RefRow F)) : List Str :=
  (rows.filterMap RefRow.key).dedup

/-- The stringified cells of metadata field `f` in the group of key `k`, in
table order: the values handed to `lambda values: '|'.join([str(v) for v in
values])`. -/
def groupCells {F : Type} (rows : List (RefRow F)) (k : Str) (f : F) : List Str :=
  (rows.filter (fun r => decide (r.key = some k))).map (fun r => pyStr (r.field f))

/-- `_aggregate_npatlas` / `_aggregate_mibig`, aggregation part:
`groupby(key)[fields].agg(lambda values: '|'.join([str(v) for v in
values])).reset_index()`. -/
def aggregate {F : Type} (rows : List (RefRow F)) : List (AggRow F) :=
  (groupKeys rows).map (fun k => ⟨k, fun f => pipeJoin (groupCells rows k f)⟩)

/-- An input feature-table row: the five annotation-tool InChIKey columns and
the molecular-network cluster id `GNPS_componentindex`. -/
structure Feature where
  GNPS_LIB_Consol_InChIKey : Option Str
  GNPS_LIBA_Consol_InChIKey : Option Str
  DEREP_Consol_InChIKey : Option Str
  DEREPplus_Consol_InChIKey : Option Str
  CSI_InChIkey2D : Option Str
  GNPS_componentindex : Int
deriving DecidableEq, Repr

/-- A raw NPAtlas row before aggregation: its full `NPA_compound_inchikey`
and its metadata cells. -/
structure NpatlasRow where
  NPA_compound_inchikey : Option Str
  field : NpaF → Option Str

/-- The key normalization `_prepare_inchikey(npatlas, 'NPA_compound_inchikey')`
performed before aggregation (the MIBiG table ships its
`no_stereo_inchikey` column ready-made). -/
def npatlasKeyed (r : NpatlasRow) : RefRow NpaF :=
  ⟨_prepare_inchikey r.NPA_compound_inchikey, r.field⟩

/-- The output rows a left merge produces for one left row: one per matching
aggregated row, or a single row with all joined columns missing when there is
no match. -/
def mergeRow {L F : Type} (right : List (AggRow F)) (lkey : L → Option Str)
    (l : L) : List (L × Option (AggRow F)) :=
  match right.filter (fun r => decide (lkey l = some r.key)) with
  | [] => [(l, none)]
  | ms => ms.map (fun r => (l, some r))

/-- `pd.merge(table, agg, left_on=column+'_no_stereo',
right_on=prefix+key, how='left')`: every left row is kept; a left row is
paired with each aggregated row whose key equals its (non-missing) key cell,
and with `none` (all joined columns missing) when there is no match. -/
def leftMerge {L F : Type} (left : List L) (right : List (AggRow F))
    (lkey : L → Option Str) : List (L × Option (AggRow F)) :=
  left.flatMap (mergeRow right lkey)

abbrev T1 := Feature × Option (AggRow NpaF)
abbrev T2 := T1 × Option (AggRow NpaF)
abbrev T3 := T2 × Option (AggRow NpaF)
abbrev T4 := T3 × Option (AggRow NpaF)
abbrev T5 := T4 × Option (AggRow NpaF)
abbrev T6 := T5 × Option (AggRow MibigF)
abbrev T7 := T6 × Option (AggRow MibigF)
abbrev T8 := T7 × Option (AggRow MibigF)
abbrev T9 := T8 × Option (AggRow MibigF)
abbrev T10 := T9 × Option (AggRow MibigF)

/-- The chain of ten left merges of the notebook: the five
`_aggregate_npatlas` applications (tools `GNPS_LIB`, `GNPS_LIBA`, `DEREP`,
`DEREP+`, `CSI` against the aggregated NPAtlas table) followed by the five
`_aggregate_mibig` applications (same tools against the aggregated MIBiG
table), each merging the cumulative result of the previous ones on the
tool's `_no_stereo` key column. -/
def join_all (features : List Feature) (npatlas : List NpatlasRow)
    (mibig : List (RefRow MibigF)) : List T10 :=
  let npa := aggregate (npatlas.map npatlasKeyed)
  let mib := aggregate mibig
  let t1 : List T1 := leftMerge features npa
    (fun x => _prepare_inchikey x.GNPS_LIB_Consol_InChIKey)
  let t2 : List T2 := leftMerge t1 npa
    (fun x => _prepare_inchikey x.1.GNPS_LIBA_Consol_InChIKey)
  let t3 : List T3 := leftMerge t2 npa
    (fun x => _prepare_inchikey x.1.1.DEREP_Consol_InChIKey)
  let t4 : List T4 := leftMerge t3 npa
    (fun x => _prepare_inchikey x.1.1.1.DEREPplus_Consol_InChIKey)
  let t5 : List T5 := leftMerge t4 npa
    (fun x => _prepare_inchikey x.1.1.1.1.CSI_InChIkey2D)
  let t6 : List T6 := leftMerge t5 mib
    (fun x => _prepare_inchikey x.1.1.1.1.1.GNPS_LIB_Consol_InChIKey)
  let t7 : List T7 := leftMerge t6 mib
    (fun x => _prepare_inchikey x.1.1.1.1.1.1.GNPS_LIBA_Consol_InChIKey)
  let t8 : List T8 := leftMerge t7 mib
    (fun x => _prepare_inchikey x.1.1.1.1.1.1.1.DEREP_Consol_InChIKey)
  let t9 : List T9 := leftMerge t8 mib
    (fun x => _prepare_inchikey x.1.1.1.1.1.1.1.1.DEREPplus_Consol_InChIKey)
  leftMerge t9 mib
    (fun x => _prepare_inchikey x.1.1.1.1.1.1.1.1.1.CSI_InChIkey2D)

/-- One row of the fully merged feature table `table = _aggregate_mibig.merged`,
restricted to the columns read by the tiering loop, the tool-summary loop and
`_propagate_microbial_annotation`.  The `DEREP+_` column prefix of the source
is written `DEREPplus_` here.  A cell holds `none` exactly when the
corresponding left merge found no reference entry for the row's key. -/
structure Row where
  GNPS_LIB_NPA_compound_id : Option Str
  GNPS_LIBA_NPA_compound_id : Option Str
  DEREP_NPA_compound_id : Option Str
  DEREPplus_NPA_compound_id : Option Str
  CSI_NPA_compound_id : Option Str
  GNPS_LIB_NPA_npaid : Option Str
  GNPS_LIBA_NPA_npaid : Option Str
  DEREP_NPA_npaid : Option Str
  DEREPplus_NPA_npaid : Option Str
  CSI_NPA_npaid : Option Str
  GNPS_LIB_MIBIG_mibig_accession : Option Str
  GNPS_LIBA_MIBIG_mibig_accession : Option Str
  DEREP_MIBIG_mibig_accession : Option Str
  DEREPplus_MIBIG_mibig_accession : Option Str
  CSI_MIBIG_mibig_accession : Option Str
  GNPS_componentindex : Int
deriving DecidableEq, Repr

/-- Reading the merged columns of one `join_all` output row under their flat
pandas column names (`prefix + NPA_compound_id`, `prefix + NPA_npaid`,
`prefix + MIBIG_mibig_accession`, `GNPS_componentindex`). -/
def toRow (x : T10) : Row where
  GNPS_LIB_NPA_compound_id :=
    x.1.1.1.1.1.1.1.1.1.2.map (fun a => a.field NpaF.compound_id)
  GNPS_LIBA_NPA_compound_id :=
    x.1.1.1.1.1.1.1.1.2.map (fun a => a.field NpaF.compound_id)
  DEREP_NPA_compound_id :=
    x.1.1.1.1.1.1.1.2.map (fun a => a.field NpaF.compound_id)
  DEREPplus_NPA_compound_id :=
    x.1.1.1.1.1.1.2.map (fun a => a.field NpaF.compound_id)
  CSI_NPA_compound_id :=
    x.1.1.1.1.1.2.map (fun a => a.field NpaF.compound_id)
  GNPS_LIB_NPA_npaid :=
    x.1.1.1.1.1.1.1.1.1.2.map (fun a => a.field NpaF.npaid)
  GNPS_LIBA_NPA_npaid :=
    x.1.1.1.1.1.1.1.1.2.map (fun a => a.field NpaF.npaid)
  DEREP_NPA_npaid :=
    x.1.1.1.1.1.1.1.2.map (fun a => a.field NpaF.npaid)
  DEREPplus_NPA_npaid :=
    x.1.1.1.1.1.1.2.map (fun a => a.field NpaF.npaid)
  CSI_NPA_npaid :=
    x.1.1.1.1.1.2.map (fun a => a.field NpaF.npaid)
  GNPS_LIB_MIBIG_mibig_accession :=
    x.1.1.1.1.2.map (fun a => a.field MibigF.mibig_accession)
  GNPS_LIBA_MIBIG_mibig_accession :=
    x.1.1.1.2.map (fun a => a.field MibigF.mibig_accession)
  DEREP_MIBIG_mibig_accession :=
    x.1.1.2.map (fun a => a.field MibigF.mibig_accession)
  DEREPplus_MIBIG_mibig_accession :=
    x.1.2.map (fun a => a.field MibigF.mibig_accession)
  CSI_MIBIG_mibig_accession :=
    x.2.map (fun a => a.field MibigF.mibig_accession)
  GNPS_componentindex := x.1.1.1.1.1.1.1.1.1.1.GNPS_componentindex

/-- The merged feature table as seen by the tiering, tool-summary and
propagation loops. -/
def pipelineRows (features : List Feature) (npatlas : List NpatlasRow)
    (mibig : List (RefRow MibigF)) : List Row :=
  (join_all features npatlas mibig).map toRow

/-- The `level_2` branch of the tiering loop: the value appended for one row
(`'YES'` on the first non-missing check, `np.nan` otherwise). -/
def level_2 (row : Row) : Option Str :=
  if row.GNPS_LIB_NPA_compound_id.isSome then some yes
  else if row.GNPS_LIBA_NPA_compound_id.isSome then some yes
  else if row.GNPS_LIB_MIBIG_mibig_accession.isSome then some yes
  else if row.GNPS_LIBA_MIBIG_mibig_accession.isSome then some yes
  else none

/-- The `level_3` branch of the tiering loop. -/
def level_3 (row : Row) : Option Str :=
  if row.DEREP_NPA_compound_id.isSome then some yes
  else if row.DEREPplus_NPA_compound_id.isSome then some yes
  else if row.DEREP_MIBIG_mibig_accession.isSome then some yes
  else if row.DEREPplus_MIBIG_mibig_accession.isSome then some yes
  else none

/-- The `level_4` branch of the tiering loop. -/
def level_4 (row : Row) : Option Str :=
  if row.CSI_NPA_compound_id.isSome then some yes
  else if row.CSI_MIBIG_mibig_accession.isSome then some yes
  else none

/-- The `level_2_3` branch of the tiering loop. -/
def level_2_3 (row : Row) : Option Str :=
  if row.GNPS_LIB_NPA_compound_id.isSome then some yes
  else if row.GNPS_LIBA_NPA_compound_id.isSome then some yes
  else if row.DEREP_NPA_compound_id.isSome then some yes
  else if row.DEREPplus_NPA_compound_id.isSome then some yes
  else if row.GNPS_LIB_MIBIG_mibig_accession.isSome then some yes
  else if row.GNPS_LIBA_MIBIG_mibig_accession.isSome then some yes
  else if row.DEREP_MIBIG_mibig_accession.isSome then some yes
  else if row.DEREPplus_MIBIG_mibig_accession.isSome then some yes
  else none

/-- The `level_2_3_4` branch of the tiering loop. -/
def level_2_3_4 (row : Row) : Option Str :=
  if row.GNPS_LIB_NPA_compound_id.isSome then some yes
  else if row.GNPS_LIBA_NPA_compound_id.isSome then some yes
  else if row.DEREP_NPA_compound_id.isSome then some yes
  else if row.DEREPplus_NPA_compound_id.isSome then some yes
  else if row.CSI_NPA_compound_id.isSome then some yes
  else if row.GNPS_LIB_MIBIG_mibig_accession.isSome then some yes
  else if row.GNPS_LIBA_MIBIG_mibig_accession.isSome then some yes
  else if row.DEREP_MIBIG_mibig_accession.isSome then some yes
  else if row.DEREPplus_MIBIG_mibig_accession.isSome then some yes
  else if row.CSI_MIBIG_mibig_accession.isSome then some yes
  else none

/-- One iteration body of the tool-summary loop: when the checked cell is
non-missing, append `label + '|'` to `element` and the cell's value + `'|'`
to `identifier`; otherwise leave both unchanged. -/
def tool_step (acc : Str × Str) (label : Str) (v : Option Str) : Str × Str :=
  match v with
  | some s => (acc.1 ++ label ++ ['|'], acc.2 ++ s ++ ['|'])
  | none => acc

/-- The ten `(label, checked cell)` pairs of the tool-summary loop, in source
order: the five NPAtlas `npaid` checks, then the five MIBiG
`mibig_accession` checks. -/
def tool_fields (row : Row) : List (Str × Option Str) :=
  [("GNPS_LIB_NPA".toList, row.GNPS_LIB_NPA_npaid),
   ("GNPS_LIBA_NPA".toList, row.GNPS_LIBA_NPA_npaid),
   ("DEREP_NPA".toList, row.DEREP_NPA_npaid),
   ("DEREP+_NPA".toList, row.DEREPplus_NPA_npaid),
   ("CSI_NPA".toList, row.CSI_NPA_npaid),
   ("GNPS_LIB_MIBIG".toList, row.GNPS_LIB_MIBIG_mibig_accession),
   ("GNPS_LIBA_MIBIG".toList, row.GNPS_LIBA_MIBIG_mibig_accession),
   ("DEREP_MIBIG".toList, row.DEREP_MIBIG_mibig_accession),
   ("DEREP+_MIBIG".toList, row.DEREPplus_MIBIG_mibig_accession),
   ("CSI_MIBIG".toList, row.CSI_MIBIG_mibig_accession)]

/-- The tool-summary loop for one row: the pair
`(is_microbial_tool, is_microbial_tool_id)` built by running `tool_step`
over the ten checks, starting from two empty strings. -/
def toolSummary (row : Row) : Str × Str :=
  (tool_fields row).foldl (fun acc p => tool_step acc p.1 p.2) ([], [])

/-- The `(label, value)` pairs of the checks that fired on a row, in loop
order. -/
def matched (row : Row) : List (Str × Str) :=
  (tool_fields row).filterMap (fun p => p.2.map (fun v => (p.1, v)))

/-- Concatenation of strings, a `'|'` after each one: the shape both summary
strings take. -/
def pipeCat (l : List Str) : Str :=
  (l.map (fun s => s ++ ['|'])).flatten

/-- The number of pipe-delimited segments of a string: one more than the
number of `'|'` occurrences (what `s.split('|')` would yield). -/
def segCount (s : Str) : Nat :=
  s.count '|' + 1

/-- First loop of `_propagate_microbial_annotation`: the cluster ids collected
from rows whose tier cell is non-missing and whose `GNPS_componentindex` is
not the sentinel `-1`. -/
def propagate_list (rows : List Row) (column : Row → Option Str) : List Int :=
  rows.filterMap (fun r =>
    if (column r).isSome then
      if r.GNPS_componentindex ≠ -1 then some r.GNPS_componentindex else none
    else none)

/-- Second loop of `_propagate_microbial_annotation`: per row, the pair of new
cells `(column_network, column_networkid)` — `('YES', componentindex)` when
the row's cluster id occurs in `propagate_list`, `(nan, nan)` otherwise. -/
def propagate_cols (rows : List Row) (column : Row → Option Str) :
    List (Option Str × Option Int) :=
  rows.map (fun r =>
    if r.GNPS_componentindex ∈ propagate_list rows column then
      (some yes, some r.GNPS_componentindex)
    else (none, none))

/-- A feature row with no evidence cell present at all. -/
def noEvidenceRow : Row where
  GNPS_LIB_NPA_compound_id := none
  GNPS_LIBA_NPA_compound_id := none
  DEREP_NPA_compound_id := none
  DEREPplus_NPA_compound_id := none
  CSI_NPA_compound_id := none
  GNPS_LIB_NPA_npaid := none
  GNPS_LIBA_NPA_npaid := none
  DEREP_NPA_npaid := none
  DEREPplus_NPA_npaid := none
  CSI_NPA_npaid := none
  GNPS_LIB_MIBIG_mibig_accession := none
  GNPS_LIBA_MIBIG_mibig_accession := none
  DEREP_MIBIG_mibig_accession := none
  DEREPplus_MIBIG_mibig_accession := none
  CSI_MIBIG_mibig_accession := none
  GNPS_componentindex := 3

/-- A feature row with one direct spectral hit (`GNPS_LIB` against NPAtlas)
and cluster id `5`. -/
def libHitRow : Row :=
  { noEvidenceRow with
      GNPS_LIB_NPA_compound_id := some ['7']
      GNPS_LIB_NPA_npaid := some ['N', '1']
      GNPS_componentindex := 5 }

/-- A feature row with no evidence of its own, in the same cluster as
`libHitRow`. -/
def sameClusterRow : Row :=
  { noEvidenceRow with GNPS_componentindex := 5 }

/-- Two NPAtlas-shaped reference rows sharing normalized key `K`, the second
with every metadata cell missing. -/
def w7rows : List (RefRow NpaF) :=
  [⟨some ['K'], fun _ => some ['a']⟩, ⟨some ['K'], fun _ => none⟩]

/-- The aggregated row the Reference Aggregator produces for key `K` of
`w7rows`. -/
def w7agg : AggRow NpaF :=
  ⟨['K'], fun f => pipeJoin (groupCells w7rows ['K'] f)⟩

/-- A feature whose `GNPS_LIB` InChIKey normalizes to key `K`. -/
def cexFeature : Feature where
  GNPS_LIB_Consol_InChIKey := some ['K', '-', 'X']
  GNPS_LIBA_Consol_InChIKey := none
  DEREP_Consol_InChIKey := none
  DEREPplus_Consol_InChIKey := none
  CSI_InChIkey2D := none
  GNPS_componentindex := 9

/-- Two NPAtlas rows whose inchikeys share the normalized key `K`, with
distinct `npaid` values `N1` and `N2`: aggregation joins them into the single
field value `N1|N2`. -/
def cexNpatlas : List NpatlasRow :=
  [⟨some ['K', '-', 'A'], fun _ => some ['N', '1']⟩,
   ⟨some ['K', '-', 'B'], fun _ => some ['N', '2']⟩]

end EMP

namespace EMP

theorem pySplit_ne_nil (sep : Char) (s : Str) : pySplit sep s ≠ [] := by
  cases s with
  | nil => simp [pySplit]
  | cons c rest =>
    simp only [pySplit]
    cases pySplit sep rest with
    | nil => simp
    | cons chunk chunks =>
      by_cases h : c = sep <;> simp [h]

theorem pySplit_headD (sep : Char) (s : Str) :
    (pySplit sep s).headD [] = s.takeWhile (fun c => c ≠ sep) := by
  induction s with
  | nil => simp [pySplit]
  | cons c rest ih =>
    simp only [pySplit]
    cases hs : pySplit sep rest with
    | nil => exact absurd hs (pySplit_ne_nil sep rest)
    | cons chunk chunks =>
      by_cases h : c = sep
      · simp [h, List.takeWhile]
      · simp only [if_neg h, List.headD_cons, List.takeWhile]
        have := ih
        rw [hs] at this
        simp only [List.headD_cons] at this
        simp [h, this]

theorem takeWhile_append_of_forall {pre post : Str} {p : Char → Bool}
    (hpre : ∀ c ∈ pre, p c) :
    (pre ++ post).takeWhile p = pre ++ post.takeWhile p := by
  induction pre with
  | nil => simp
  | cons c cs ih =>
    have hc : p c := hpre c (List.mem_cons_self c cs)
    have hcs := ih (fun x hx => hpre x (List.mem_cons_of_mem c hx))
    simp [List.takeWhile_cons, hc, hcs]

/-- C9.  The Identifier Normalizer `_prepare_inchikey` maps a missing cell to
missing, maps a string to its prefix before the first `'-'` (the whole string
when no `'-'` occurs), and is idempotent. -/
theorem C9_prepare_inchikey :
    (_prepare_inchikey none = none) ∧
    (∀ pre post : Str, '-' ∉ pre →
      _prepare_inchikey (some (pre ++ '-' :: post)) = some pre) ∧
    (∀ s : Str, '-' ∉ s → _prepare_inchikey (some s) = some s) ∧
    (∀ v : Option Str, _prepare_inchikey (_prepare_inchikey v) = _prepare_inchikey v) := by
  have hkey : ∀ s : Str, (pySplit '-' s).headD [] = s.takeWhile (fun c => c ≠ '-') :=
    pySplit_headD '-'
  refine ⟨rfl, ?_, ?_, ?_⟩
  · intro pre post hpre
    simp only [_prepare_inchikey, Option.map_some', Option.some.injEq, hkey]
    have h1 : ∀ c ∈ pre, (fun c => decide (c ≠ '-')) c = true := by
      intro c hc
      simp only [decide_eq_true_eq]
      intro hcontra
      exact hpre (hcontra ▸ hc)
    rw [takeWhile_append_of_forall h1]
    have : ('-' :: post).takeWhile (fun c => decide (c ≠ '-')) = [] := by
      simp [List.takeWhile]
    simp [this]
  · intro s hs
    simp only [_prepare_inchikey, Option.map_some', Option.some.injEq, hkey]
    apply List.takeWhile_eq_self_iff.mpr
    intro c hc
    simp only [decide_eq_true_eq]
    intro hcontra
    exact hs (hcontra ▸ hc)
  · intro v
    cases v with
    | none => rfl
    | some s =>
      simp only [_prepare_inchikey, Option.map_some', Option.some.injEq, hkey]
      apply List.takeWhile_eq_self_iff.mpr
      intro c hc
      simpa using List.mem_takeWhile_imp hc

/-- Witness for C9 at a concrete identifier `AB-CD`. -/
theorem C9_prepare_inchikey_witness :
    ('-' ∉ (['A', 'B'] : Str)) ∧
      _prepare_inchikey (some (['A', 'B'] ++ '-' :: ['C', 'D'])) = some ['A', 'B'] :=
  ⟨by decide, C9_prepare_inchikey.2.1 ['A', 'B'] ['C', 'D'] (by decide)⟩

theorem level_2_eq (row : Row) :
    level_2 row =
      if row.GNPS_LIB_NPA_compound_id ≠ none ∨ row.GNPS_LIBA_NPA_compound_id ≠ none ∨
          row.GNPS_LIB_MIBIG_mibig_accession ≠ none ∨ row.GNPS_LIBA_MIBIG_mibig_accession ≠ none
      then some yes else none := by
  unfold level_2
  split_ifs <;> simp_all [Option.isSome_iff_ne_none]

theorem level_3_eq (row : Row) :
    level_3 row =
      if row.DEREP_NPA_compound_id ≠ none ∨ row.DEREPplus_NPA_compound_id ≠ none ∨
          row.DEREP_MIBIG_mibig_accession ≠ none ∨ row.DEREPplus_MIBIG_mibig_accession ≠ none
      then some yes else none := by
  unfold level_3
  split_ifs <;> simp_all [Option.isSome_iff_ne_none]

theorem level_4_eq (row : Row) :
    level_4 row =
      if row.CSI_NPA_compound_id ≠ none ∨ row.CSI_MIBIG_mibig_accession ≠ none
      then some yes else none := by
  unfold level_4
  split_ifs <;> simp_all [Option.isSome_iff_ne_none]

set_option maxHeartbeats 2000000 in
theorem level_2_3_eq (row : Row) :
    level_2_3 row =
      if row.GNPS_LIB_NPA_compound_id ≠ none ∨ row.GNPS_LIBA_NPA_compound_id ≠ none ∨
          row.DEREP_NPA_compound_id ≠ none ∨ row.DEREPplus_NPA_compound_id ≠ none ∨
          row.GNPS_LIB_MIBIG_mibig_accession ≠ none ∨ row.GNPS_LIBA_MIBIG_mibig_accession ≠ none ∨
          row.DEREP_MIBIG_mibig_accession ≠ none ∨ row.DEREPplus_MIBIG_mibig_accession ≠ none
      then some yes else none := by
  unfold level_2_3
  split_ifs <;> simp_all [Option.isSome_iff_ne_none]

set_option maxHeartbeats 4000000 in
theorem level_2_3_4_eq (row : Row) :
    level_2_3_4 row =
      if row.GNPS_LIB_NPA_compound_id ≠ none ∨ row.GNPS_LIBA_NPA_compound_id ≠ none ∨
          row.DEREP_NPA_compound_id ≠ none ∨ row.DEREPplus_NPA_compound_id ≠ none ∨
          row.CSI_NPA_compound_id ≠ none ∨
          row.GNPS_LIB_MIBIG_mibig_accession ≠ none ∨ row.GNPS_LIBA_MIBIG_mibig_accession ≠ none ∨
          row.DEREP_MIBIG_mibig_accession ≠ none ∨ row.DEREPplus_MIBIG_mibig_accession ≠ none ∨
          row.CSI_MIBIG_mibig_accession ≠ none
      then some yes else none := by
  unfold level_2_3_4
  split_ifs <;> simp_all [Option.isSome_iff_ne_none]

/-- C1.  The combined tier columns agree with the union of their constituent
tiers: `is_microbial_level_2_3` carries the `'YES'` marker exactly when
`is_microbial_level_2` or `is_microbial_level_3` does, and
`is_microbial_level_2_3_4` exactly when one of the three base tiers does,
although the loop recomputes them from the underlying evidence columns. -/
theorem C1_combined_tier_union (row : Row) :
    (level_2_3 row = some yes ↔ (level_2 row = some yes ∨ level_3 row = some yes)) ∧
    (level_2_3_4 row = some yes ↔
      (level_2 row = some yes ∨ level_3 row = some yes ∨ level_4 row = some yes)) := by
  rw [level_2_eq, level_3_eq, level_4_eq, level_2_3_eq, level_2_3_4_eq]
  constructor <;> · split_ifs <;> simp_all

/-- C2.  Each tier column of the tiering loop holds the literal `'YES'`
exactly when at least one of that tier's fixed evidence columns is
non-missing, and holds missing (never a negative marker) when all of them
are missing. -/
theorem C2_tier_yes_or_missing (row : Row) :
    (level_2 row = some yes ↔
      (row.GNPS_LIB_NPA_compound_id ≠ none ∨ row.GNPS_LIBA_NPA_compound_id ≠ none ∨
       row.GNPS_LIB_MIBIG_mibig_accession ≠ none ∨ row.GNPS_LIBA_MIBIG_mibig_accession ≠ none)) ∧
    (¬(row.GNPS_LIB_NPA_compound_id ≠ none ∨ row.GNPS_LIBA_NPA_compound_id ≠ none ∨
       row.GNPS_LIB_MIBIG_mibig_accession ≠ none ∨ row.GNPS_LIBA_MIBIG_mibig_accession ≠ none) →
      level_2 row = none) ∧
    (level_3 row = some yes ↔
      (row.DEREP_NPA_compound_id ≠ none ∨ row.DEREPplus_NPA_compound_id ≠ none ∨
       row.DEREP_MIBIG_mibig_accession ≠ none ∨ row.DEREPplus_MIBIG_mibig_accession ≠ none)) ∧
    (¬(row.DEREP_NPA_compound_id ≠ none ∨ row.DEREPplus_NPA_compound_id ≠ none ∨
       row.DEREP_MIBIG_mibig_accession ≠ none ∨ row.DEREPplus_MIBIG_mibig_accession ≠ none) →
      level_3 row = none) ∧
    (level_4 row = some yes ↔
      (row.CSI_NPA_compound_id ≠ none ∨ row.CSI_MIBIG_mibig_accession ≠ none)) ∧
    (¬(row.CSI_NPA_compound_id ≠ none ∨ row.CSI_MIBIG_mibig_accession ≠ none) →
      level_4 row = none) := by
  rw [level_2_eq, level_3_eq, level_4_eq]
  refine ⟨?_, ?_, ?_, ?_, ?_, ?_⟩ <;> · split_ifs <;> simp_all

/-- Witness for C2 at a row with no evidence at all: every tier is missing. -/
theorem C2_tier_yes_or_missing_witness :
    (¬((noEvidenceRow.GNPS_LIB_NPA_compound_id ≠ none ∨
        noEvidenceRow.GNPS_LIBA_NPA_compound_id ≠ none ∨
        noEvidenceRow.GNPS_LIB_MIBIG_mibig_accession ≠ none ∨
        noEvidenceRow.GNPS_LIBA_MIBIG_mibig_accession ≠ none))) ∧
      level_2 noEvidenceRow = none :=
  ⟨by decide, (C2_tier_yes_or_missing noEvidenceRow).2.1 (by decide)⟩

/-- C3.  A cluster id `c` is a propagation source for a tier column exactly
when `c` is not the sentinel `-1` and some row with cluster id `c` has a
non-missing cell in that tier column; in particular a sentinel row is never a
propagation source, so its positivity marks no other row's `_network`
column. -/
theorem C3_propagation_sources (rows : List Row) (column : Row → Option Str) (c : Int) :
    c ∈ propagate_list rows column ↔
      (c ≠ -1 ∧ ∃ r ∈ rows, r.GNPS_componentindex = c ∧ (column r).isSome) := by
  unfold propagate_list
  rw [List.mem_filterMap]
  constructor
  · rintro ⟨r, hr, hf⟩
    by_cases h1 : (column r).isSome
    · rw [if_pos h1] at hf
      by_cases h2 : r.GNPS_componentindex ≠ -1
      · rw [if_pos h2] at hf
        cases hf
        exact ⟨h2, r, hr, rfl, h1⟩
      · rw [if_neg h2] at hf
        cases hf
    · rw [if_neg h1] at hf
      cases hf
  · rintro ⟨hc, r, hr, hcid, hsome⟩
    refine ⟨r, hr, ?_⟩
    rw [if_pos hsome, if_pos (hcid ▸ hc), hcid]

theorem zip_self_map {α β : Type} (l : List α) (g : α → β) :
    l.zip (l.map g) = l.map (fun x => (x, g x)) := by
  induction l with
  | nil => rfl
  | cons a t ih => simp [ih]

theorem zip_propagate_cols (rows : List Row) (column : Row → Option Str) :
    rows.zip (propagate_cols rows column) =
      rows.map (fun r => (r,
        if r.GNPS_componentindex ∈ propagate_list rows column then
          (some yes, some r.GNPS_componentindex)
        else ((none : Option Str), (none : Option Int)))) :=
  zip_self_map rows _

/-- C4.  Zipping each row with its pair of new propagation cells: a row
positive on the tier with a non-sentinel cluster id gets the `'YES'` marker
in its own `_network` cell, and a row with the sentinel cluster id never gets
a `_network` marker at all (in particular not from another row's
evidence). -/
theorem C4_propagation_superset (rows : List Row) (column : Row → Option Str) :
    ∀ p ∈ rows.zip (propagate_cols rows column),
      ((column p.1).isSome → p.1.GNPS_componentindex ≠ -1 → p.2.1 = some yes) ∧
      (p.1.GNPS_componentindex = -1 → p.2.1 = none) := by
  intro p hp
  rw [zip_propagate_cols, List.mem_map] at hp
  obtain ⟨r, hr, rfl⟩ := hp
  constructor
  · intro hsome hcid
    have hmem : r.GNPS_componentindex ∈ propagate_list rows column :=
      (C3_propagation_sources rows column r.GNPS_componentindex).mpr
        ⟨hcid, r, hr, rfl, hsome⟩
    simp only [if_pos hmem]
  · intro hcid
    have hnot : r.GNPS_componentindex ∉ propagate_list rows column := by
      intro hmem
      exact ((C3_propagation_sources rows column _).mp hmem).1 hcid
    simp only [if_neg hnot]

/-- Witness for C4: a single-row table with a `GNPS_LIB` hit and cluster id
`5` is marked in its own `_network` cell. -/
theorem C4_propagation_superset_witness :
    (libHitRow, ((some yes : Option Str), (some 5 : Option Int))) ∈
        [libHitRow].zip (propagate_cols [libHitRow] level_2) ∧
      (level_2 libHitRow).isSome ∧ libHitRow.GNPS_componentindex ≠ -1 ∧
      ((some yes : Option Str), (some 5 : Option Int)).1 = some yes :=
  ⟨by decide, by decide, by decide,
    (C4_propagation_superset [libHitRow] level_2
        (libHitRow, (some yes, some 5)) (by decide)).1 (by decide) (by decide)⟩

/-- C5.  Any two rows sharing a non-sentinel cluster id get identical values
in the tier's `_network` cell; a row marked `'YES'` there carries its own
cluster id in the `_networkid` cell; an unmarked row gets missing in both
new cells. -/
theorem C5_propagation_closure (rows : List Row) (column : Row → Option Str) :
    (∀ p ∈ rows.zip (propagate_cols rows column),
      ∀ q ∈ rows.zip (propagate_cols rows column),
        p.1.GNPS_componentindex = q.1.GNPS_componentindex →
        p.1.GNPS_componentindex ≠ -1 → p.2.1 = q.2.1) ∧
    (∀ p ∈ rows.zip (propagate_cols rows column),
      p.2.1 = some yes → p.2.2 = some p.1.GNPS_componentindex) ∧
    (∀ p ∈ rows.zip (propagate_cols rows column),
      p.2.1 ≠ some yes → p.2.1 = none ∧ p.2.2 = none) := by
  refine ⟨?_, ?_, ?_⟩
  · intro p hp q hq hsame _
    rw [zip_propagate_cols, List.mem_map] at hp hq
    obtain ⟨r, _, rfl⟩ := hp
    obtain ⟨r', _, rfl⟩ := hq
    dsimp only at hsame ⊢
    rw [hsame]
  · intro p hp hyes
    rw [zip_propagate_cols, List.mem_map] at hp
    obtain ⟨r, _, rfl⟩ := hp
    by_cases hmem : r.GNPS_componentindex ∈ propagate_list rows column
    · simp [hmem]
    · simp [hmem] at hyes
  · intro p hp hno
    rw [zip_propagate_cols, List.mem_map] at hp
    obtain ⟨r, _, rfl⟩ := hp
    by_cases hmem : r.GNPS_componentindex ∈ propagate_list rows column
    · simp [hmem] at hno
    · simp [hmem]

/-- Witness for C5: in a two-row table whose rows share cluster id `5` and
only the first is positive, both rows' `_network` cells agree. -/
theorem C5_propagation_closure_witness :
    (libHitRow, ((some yes : Option Str), (some 5 : Option Int))) ∈
        [libHitRow, sameClusterRow].zip
          (propagate_cols [libHitRow, sameClusterRow] level_2) ∧
      (sameClusterRow, ((some yes : Option Str), (some 5 : Option Int))) ∈
        [libHitRow, sameClusterRow].zip
          (propagate_cols [libHitRow, sameClusterRow] level_2) ∧
      libHitRow.GNPS_componentindex = sameClusterRow.GNPS_componentindex ∧
      libHitRow.GNPS_componentindex ≠ -1 ∧
      ((some yes : Option Str), (some 5 : Option Int)).1 =
        ((some yes : Option Str), (some 5 : Option Int)).1 :=
  ⟨by decide, by decide, by decide, by decide,
    (C5_propagation_closure [libHitRow, sameClusterRow] level_2).1
      (libHitRow, (some yes, some 5)) (by decide)
      (sameClusterRow, (some yes, some 5)) (by decide) (by decide) (by decide)⟩

theorem pipeJoin_count_pipe (l : List Str) (hl : l ≠ [])
    (h : ∀ s ∈ l, '|' ∉ s) : (pipeJoin l).count '|' = l.length - 1 := by
  induction l with
  | nil => exact absurd rfl hl
  | cons s rest ih =>
    cases rest with
    | nil =>
      simp only [pipeJoin, List.length_cons, List.length_nil]
      exact List.count_eq_zero.mpr (h s (List.mem_cons_self s []))
    | cons b t =>
      have hs : (pipeJoin (s :: b :: t)) = s ++ '|' :: pipeJoin (b :: t) := by
        simp [pipeJoin]
      rw [hs, List.count_append, List.count_cons,
        List.count_eq_zero.mpr (h s (List.mem_cons_self s (b :: t))),
        ih (by simp) (fun x hx => h x (List.mem_cons_of_mem s hx))]
      simp

theorem aggregate_map_key {F : Type} (rows : List (RefRow F)) :
    (aggregate rows).map AggRow.key = groupKeys rows := by
  unfold aggregate
  rw [List.map_map]
  have hid : (AggRow.key ∘ fun k =>
      (⟨k, fun f => pipeJoin (groupCells rows k f)⟩ : AggRow F)) = id := rfl
  rw [hid, List.map_id]

theorem nodup_aggregate_keys {F : Type} (rows : List (RefRow F)) :
    ((aggregate rows).map AggRow.key).Nodup := by
  rw [aggregate_map_key]
  exact List.nodup_dedup _

/-- C7.  The Reference Aggregator emits exactly one row per distinct
normalized key; each metadata field of an output row is the pipe-joined
concatenation of the string forms of all original cells sharing the key,
missing cells included as the literal text `nan`; and, when no original cell
contains a pipe, every field of an output row has one segment per original
row of its group, so all fields of a row have equal segment counts in
aligned order. -/
theorem C7_aggregation_unique_and_aligned (F : Type) (rows : List (RefRow F)) :
    ((aggregate rows).map AggRow.key).Nodup ∧
    (∀ a ∈ aggregate rows, ∀ f : F,
      a.field f = pipeJoin ((rows.filter (fun r => decide (r.key = some a.key))).map
        (fun r => pyStr (r.field f)))) ∧
    (∀ a ∈ aggregate rows,
      (∀ r ∈ rows, ∀ f : F, ∀ s, r.field f = some s → '|' ∉ s) →
      ∀ f : F, segCount (a.field f) =
        (rows.filter (fun r => decide (r.key = some a.key))).length) := by
  refine ⟨nodup_aggregate_keys rows, ?_, ?_⟩
  · intro a ha f
    obtain ⟨k, hk, rfl⟩ := List.mem_map.mp ha
    rfl
  · intro a ha hfree f
    obtain ⟨k, hk, rfl⟩ := List.mem_map.mp ha
    dsimp only
    have hkmem : ∃ r ∈ rows, r.key = some k := by
      have := List.mem_dedup.mp hk
      obtain ⟨r, hr, hkey⟩ := List.mem_filterMap.mp this
      exact ⟨r, hr, hkey⟩
    obtain ⟨r0, hr0, hkey0⟩ := hkmem
    have hfilter_ne : rows.filter (fun r => decide (r.key = some k)) ≠ [] := by
      intro hnil
      have : r0 ∈ rows.filter (fun r => decide (r.key = some k)) :=
        List.mem_filter.mpr ⟨hr0, by simp [hkey0]⟩
      rw [hnil] at this
      exact absurd this (List.not_mem_nil r0)
    have hcells_ne : groupCells rows k f ≠ [] := by
      unfold groupCells
      intro hnil
      exact hfilter_ne (List.map_eq_nil_iff.mp hnil)
    have hcells_free : ∀ s ∈ groupCells rows k f, '|' ∉ s := by
      intro s hs
      obtain ⟨r, hr, rfl⟩ := List.mem_map.mp hs
      cases hv : r.field f with
      | none => simp [pyStr, hv]
      | some v =>
        simp only [pyStr, hv]
        exact hfree r (List.mem_of_mem_filter hr) f v hv
    show segCount (pipeJoin (groupCells rows k f)) = _
    unfold segCount
    rw [pipeJoin_count_pipe _ hcells_ne hcells_free]
    unfold groupCells
    rw [List.length_map]
    have hpos : 0 < (rows.filter (fun r => decide (r.key = some k))).length :=
      List.length_pos.mpr hfilter_ne
    omega

/-- Witness for C7: aggregating `w7rows` (two rows with key `K`, the second
all-missing) yields a row whose `npaid` field has two pipe segments, one per
original row. -/
theorem C7_aggregation_witness :
    w7agg ∈ aggregate w7rows ∧
      segCount (w7agg.field NpaF.npaid) =
        (w7rows.filter (fun r => decide (r.key = some w7agg.key))).length := by
  have hk : (['K'] : Str) ∈ groupKeys w7rows := by decide
  have hmem : w7agg ∈ aggregate w7rows := List.mem_map.mpr ⟨['K'], hk, rfl⟩
  refine ⟨hmem, (C7_aggregation_unique_and_aligned NpaF w7rows).2.2 w7agg hmem ?_ NpaF.npaid⟩
  intro r hr f s hs
  have hr2 : r = (⟨some ['K'], fun _ => some ['a']⟩ : RefRow NpaF) ∨
      r = (⟨some ['K'], fun _ => none⟩ : RefRow NpaF) := by
    simpa [w7rows] using hr
  rcases hr2 with rfl | rfl
  · simp only at hs
    cases hs
    decide
  · simp only at hs
    cases hs

theorem filter_key_length_le {F : Type} (right : List (AggRow F)) (k : Option Str)
    (h : (right.map AggRow.key).Nodup) :
    (right.filter (fun r => decide (k = some r.key))).length ≤ 1 := by
  revert h
  induction right with
  | nil => simp
  | cons r rs ih =>
    intro h
    rw [List.map_cons, List.nodup_cons] at h
    obtain ⟨hnot, hnd⟩ := h
    by_cases hk : k = some r.key
    · rw [List.filter_cons_of_pos (by simpa using hk)]
      have hnil : rs.filter (fun r' => decide (k = some r'.key)) = [] := by
        apply List.filter_eq_nil_iff.mpr
        intro r' hr'
        simp only [decide_eq_true_eq]
        intro hk'
        apply hnot
        have hkey : r'.key = r.key := by
          have := hk ▸ hk'
          exact Option.some_injective _ this.symm
        exact hkey ▸ List.mem_map_of_mem AggRow.key hr'
      rw [hnil]
      simp
    · rw [List.filter_cons_of_neg (by simpa using hk)]
      exact ih hnd

theorem length_mergeRow {L F : Type} (right : List (AggRow F))
    (lkey : L → Option Str) (l : L) (h : (right.map AggRow.key).Nodup) :
    (mergeRow right lkey l).length = 1 := by
  have hle := filter_key_length_le right (lkey l) h
  unfold mergeRow
  cases hm : right.filter (fun r => decide (lkey l = some r.key)) with
  | nil => rfl
  | cons m ms =>
    rw [hm] at hle
    simp only [List.length_cons] at hle
    simp only [List.length_map, List.length_cons]
    omega

theorem length_leftMerge {L F : Type} (left : List L) (right : List (AggRow F))
    (lkey : L → Option Str) (h : (right.map AggRow.key).Nodup) :
    (leftMerge left right lkey).length = left.length := by
  unfold leftMerge
  induction left with
  | nil => rfl
  | cons l ls ih =>
    rw [List.flatMap_cons, List.length_append, ih,
      length_mergeRow right lkey l h, List.length_cons]
    omega

/-- C6.  The chain of ten left merges preserves the feature-table row count:
each merge joins against an aggregated reference whose keys are unique, so
no feature row is dropped or duplicated. -/
theorem C6_row_count_invariant (features : List Feature) (npatlas : List NpatlasRow)
    (mibig : List (RefRow MibigF)) :
    (join_all features npatlas mibig).length = features.length := by
  unfold join_all
  repeat rw [length_leftMerge _ _ _ (nodup_aggregate_keys _)]

theorem foldl_tool_step (l : List (Str × Option Str)) (e i : Str) :
    l.foldl (fun acc p => tool_step acc p.1 p.2) (e, i) =
      (e ++ pipeCat ((l.filterMap (fun p => p.2.map (fun v => (p.1, v)))).map Prod.fst),
       i ++ pipeCat ((l.filterMap (fun p => p.2.map (fun v => (p.1, v)))).map Prod.snd)) := by
  induction l generalizing e i with
  | nil => simp [pipeCat]
  | cons p rest ih =>
    cases hp : p.2 with
    | none =>
      rw [List.foldl_cons]
      have hstep : tool_step (e, i) p.1 p.2 = (e, i) := by
        simp [tool_step, hp]
      rw [hstep, ih]
      simp [List.filterMap_cons, hp]
    | some v =>
      rw [List.foldl_cons]
      have hstep : tool_step (e, i) p.1 p.2 = (e ++ p.1 ++ ['|'], i ++ v ++ ['|']) := by
        simp [tool_step, hp]
      rw [hstep, ih]
      simp [List.filterMap_cons, hp, pipeCat, List.append_assoc]

theorem toolSummary_eq (row : Row) :
    toolSummary row = (pipeCat ((matched row).map Prod.fst),
                       pipeCat ((matched row).map Prod.snd)) := by
  unfold toolSummary matched
  rw [foldl_tool_step]
  simp

theorem pipeCat_cons (s : Str) (rest : List Str) :
    pipeCat (s :: rest) = (s ++ ['|']) ++ pipeCat rest := by
  simp [pipeCat]

theorem count_pipeCat (l : List Str) (h : ∀ s ∈ l, '|' ∉ s) :
    (pipeCat l).count '|' = l.length := by
  induction l with
  | nil => simp [pipeCat]
  | cons s rest ih =>
    rw [pipeCat_cons, List.count_append, List.count_append,
      List.count_eq_zero.mpr (h s (List.mem_cons_self s rest)),
      ih (fun x hx => h x (List.mem_cons_of_mem s hx))]
    simp [Nat.add_comm]

theorem matched_label_pipe_free (row : Row) :
    ∀ p ∈ matched row, '|' ∉ p.1 := by
  intro p hp
  obtain ⟨q, hq, hmap⟩ := List.mem_filterMap.mp hp
  obtain ⟨v, hv, rfl⟩ := Option.map_eq_some'.mp hmap
  dsimp only
  unfold tool_fields at hq
  fin_cases hq <;> (dsimp only; decide)

/-- C8 fails on the code: when a normalized key groups several reference
rows, the aggregated identifier that the tool-summary loop appends to
`is_microbial_tool_id` itself contains pipes, so the two summary columns get
different segment counts.  Running the pipeline on one feature matching two
NPAtlas rows (`npaid`s `N1`, `N2`) yields `is_microbial_tool =
'GNPS_LIB_NPA|'` (2 segments) but `is_microbial_tool_id = 'N1|N2|'`
(3 segments). -/
theorem C8_counterexample_aggregated_id :
    ¬ ∀ r ∈ pipelineRows [cexFeature] cexNpatlas [],
        segCount (toolSummary r).1 = segCount (toolSummary r).2 := by
  decide

/-- C8 amended: the two summary strings list, in lock-step and in the fixed
ten-combination order, one label and one identifier-field per fired check —
the Nth label corresponds to the Nth identifier — and their pipe-segment
counts are equal provided no matched identifier field itself contains a pipe
(aggregated fields of a colliding key may). -/
theorem C8_tool_lockstep (row : Row)
    (h : ∀ p ∈ matched row, '|' ∉ p.2) :
    (toolSummary row).1 = pipeCat ((matched row).map Prod.fst) ∧
    (toolSummary row).2 = pipeCat ((matched row).map Prod.snd) ∧
    segCount (toolSummary row).1 = segCount (toolSummary row).2 := by
  have he := toolSummary_eq row
  refine ⟨by rw [he], by rw [he], ?_⟩
  rw [he]
  unfold segCount
  dsimp only
  rw [count_pipeCat _ (by
      intro s hs
      obtain ⟨p, hp, rfl⟩ := List.mem_map.mp hs
      exact matched_label_pipe_free row p hp),
    count_pipeCat _ (by
      intro s hs
      obtain ⟨p, hp, rfl⟩ := List.mem_map.mp hs
      exact h p hp)]
  simp

/-- Witness for the amended C8 at `libHitRow`, whose single matched
identifier `N1` is pipe-free: both summary strings have two segments. -/
theorem C8_tool_lockstep_witness :
    (∀ p ∈ matched libHitRow, '|' ∉ p.2) ∧
      segCount (toolSummary libHitRow).1 = segCount (toolSummary libHitRow).2 :=
  ⟨by decide, (C8_tool_lockstep libHitRow (by decide)).2.2⟩

theorem pipeCat_ne_nil (l : List Str) (hl : l ≠ []) : pipeCat l ≠ [] := by
  cases l with
  | nil => exact absurd rfl hl
  | cons s rest =>
    rw [pipeCat_cons]
    simp

theorem getLast?_pipeCat (l : List Str) (hl : l ≠ []) :
    (pipeCat l).getLast? = some '|' := by
  induction l with
  | nil => exact absurd rfl hl
  | cons s rest ih =>
    rw [pipeCat_cons]
    cases hr : rest with
    | nil =>
      subst hr
      simp [pipeCat]
    | cons b t =>
      rw [List.getLast?_append_of_ne_nil _ (by rw [← hr]; exact pipeCat_ne_nil rest (by simp [hr]))]
      rw [← hr]
      exact ih (by simp [hr])

/-- C10.  The two summary columns are total: a row where none of the ten
checks fires gets the present empty string in both `is_microbial_tool` and
`is_microbial_tool_id` (the loop always appends a string, never a missing
marker), and a row with at least one fired check gets a non-empty string
ending in a trailing `'|'` in both. -/
theorem C10_tool_columns_total (row : Row) :
    ((∀ p ∈ tool_fields row, p.2 = none) → toolSummary row = ([], [])) ∧
    ((∃ p ∈ tool_fields row, p.2 ≠ none) →
      (toolSummary row).1 ≠ [] ∧ (toolSummary row).1.getLast? = some '|' ∧
      (toolSummary row).2 ≠ [] ∧ (toolSummary row).2.getLast? = some '|') := by
  have he := toolSummary_eq row
  constructor
  · intro hall
    have hm : matched row = [] := by
      unfold matched
      apply List.filterMap_eq_nil_iff.mpr
      intro p hp
      rw [hall p hp]
      rfl
    rw [he, hm]
    rfl
  · rintro ⟨p, hp, hne⟩
    obtain ⟨v, hv⟩ := Option.ne_none_iff_exists'.mp hne
    have hm : (p.1, v) ∈ matched row := by
      unfold matched
      exact List.mem_filterMap.mpr ⟨p, hp, by rw [hv]; rfl⟩
    have hmne : matched row ≠ [] := by
      intro hnil
      rw [hnil] at hm
      exact absurd hm (List.not_mem_nil _)
    have h1 : (matched row).map Prod.fst ≠ [] := by
      simpa using hmne
    have h2 : (matched row).map Prod.snd ≠ [] := by
      simpa using hmne
    rw [he]
    exact ⟨pipeCat_ne_nil _ h1, getLast?_pipeCat _ h1,
      pipeCat_ne_nil _ h2, getLast?_pipeCat _ h2⟩

/-- Witness for C10 at `libHitRow`: one check fires, both summary strings end
in a pipe. -/
theorem C10_tool_columns_total_witness :
    (∃ p ∈ tool_fields libHitRow, p.2 ≠ none) ∧
      (toolSummary libHitRow).1 ≠ [] ∧
      (toolSummary libHitRow).1.getLast? = some '|' ∧
      (toolSummary libHitRow).2 ≠ [] ∧
      (toolSummary libHitRow).2.getLast? = some '|' :=
  ⟨by decide, (C10_tool_columns_total libHitRow).2 (by decide)⟩

end EMP
